import Mathlib

/-!
A verification development for the runtime environment-variable exposure
library `next-dynenv`. The TypeScript sources under `src/` are shallowly
embedded: environment maps become association lists from `String` to
`String`, JavaScript property lookup becomes `List.lookup`, functions that
can `throw` return `Except JsError _`, and `undefined` becomes `none`.
Each embedded definition carries a pointer to the source function it
translates.
-/

/-- An environment map: string keys to string values, as JavaScript exposes
`process.env` and `window.__ENV`. A key bound in the list is "defined"; a
key not bound is `undefined`. -/
abbrev EnvMap := List (String × String)

/-- JavaScript property read `m[k]`: the value bound to `k`, or `none` for
`undefined`. -/
def lookupEnv (m : EnvMap) (k : String) : Option String :=
  m.lookup k

/-- The JavaScript nullish-coalescing operator `a ?? b` on possibly
undefined strings: `b` only when `a` is `undefined`, never when `a` is a
defined value such as the empty string. -/
def jsNullish (a b : Option String) : Option String :=
  match a with
  | some v => some v
  | none => b

/-- JavaScript `String.prototype.startsWith`: is `p` a prefix of `s`?
(Modelled on the character lists; identical to the UTF-16 prefix test for
the ASCII arguments the library uses.) -/
def jsStartsWith (s p : String) : Bool :=
  p.data.isPrefixOf s.data

/-- JavaScript `String.prototype.includes`: does `s` contain `pat` as a
contiguous substring? -/
def jsIncludes (s pat : String) : Bool :=
  hasSeg pat.data s.data
where
  /-- Does `pat` occur as a contiguous segment of the second list? -/
  hasSeg (pat : List Char) : List Char → Bool
    | [] => pat.isEmpty
    | c :: cs => pat.isPrefixOf (c :: cs) || hasSeg pat cs

/-- The public-visibility name rule's literal, case-sensitive marker, from
`src/script/constants` (re-exported by `src/script/index.ts`; its value is
pinned by the `key.startsWith('NEXT_PUBLIC_')` literals in
`src/script/env.ts` and `src/helpers/is-browser.ts`). -/
def NEXT_PUBLIC_ : String := "NEXT_PUBLIC_"

/-- The well-known global identifier under which the consumer store is
published: `PUBLIC_ENV_KEY` from `src/script/constants`, pinned to `__ENV`
by the repository's `declare global` block (`interface Window { __ENV :
NodeJS.ProcessEnv }`) and by `src/script/env-script.tsx`. -/
def PUBLIC_ENV_KEY : String := "__ENV"

/-- `getPublicEnv` from `src/helpers/is-browser.ts` (second block):
`Object.keys(process.env).filter((key) => key.startsWith('NEXT_PUBLIC_'))`
rebuilt into an object — on the association-list model, the sublist of
entries whose key passes the case-sensitive public test. -/
def getPublicEnv (penv : EnvMap) : EnvMap :=
  penv.filter (fun p => jsStartsWith p.1 NEXT_PUBLIC_)

/-- A thrown JavaScript `Error`, carrying its message. -/
inductive JsError where
  | error (message : String)
deriving DecidableEq, Repr

/-- The execution world the resolver functions see: `window` may be absent
(the producing boundary / server process), present without a truthy
`window.__ENV` (a browser before the injected artifact ran), or present
with the consumer store; `penv` is `process.env`. -/
structure World where
  window : Option (Option EnvMap)
  penv : EnvMap

/-- A producing-boundary world: no `window` at all. -/
def serverWorld (penv : EnvMap) : World :=
  { window := none, penv := penv }

/-- A consuming-boundary world: `window` exists and `window.__ENV` holds
the store `st`. -/
def browserWorld (st penv : EnvMap) : World :=
  { window := some (some st), penv := penv }

/-- A world where `window` exists but `window.__ENV` is absent or falsy. -/
def bareWindowWorld (penv : EnvMap) : World :=
  { window := some none, penv := penv }

/-- The `isBrowser` helper from `src/helpers/is-browser.ts`:
`Boolean(typeof window !== 'undefined' && window[PUBLIC_ENV_KEY])` — true
only when `window` exists *and* carries a truthy `__ENV` store. -/
def isBrowser (w : World) : Bool :=
  match w.window with
  | some (some _) => true
  | _ => false

/-- The `IS_BROWSER` constant from `src/script/env.ts`:
`typeof window !== 'undefined'` — `window` presence alone, without looking
at the store. -/
def IS_BROWSER (w : World) : Bool :=
  w.window.isSome

/-- The `AccessDenied` message thrown by `env` in `src/script/env.ts`
(lines 102-108) for a non-public key read in the browser. -/
def accessDeniedMessage (key : String) : String :=
  "Environment variable '" ++ key ++ "' is not public and cannot be accessed in the browser.\n" ++
    "To fix this:\n" ++
    "  1. Rename to 'NEXT_PUBLIC_" ++ key ++ "' if it should be public, or\n" ++
    "  2. Use makeEnvPublic('" ++ key ++ "') in next.config.js, or\n" ++
    "  3. Access from a server component or API route instead"

/-- The `MissingRequired` message thrown by `requireEnv` in
`src/script/env.ts` (lines 154-157). -/
def missingRequiredMessage (key : String) : String :=
  "Required environment variable '" ++ key ++ "' is not defined.\n" ++
    "Please set it in your environment or .env file."

/-- `env` from `src/script/env.ts` (lines 99-115). In the browser (store
present) a non-public key throws; a public key reads the store with
`?? defaultValue`. Otherwise it reads `process.env` with `?? defaultValue`.
`d = none` is a call without the optional `defaultValue` argument. -/
def env (w : World) (key : String) (d : Option String) :
    Except JsError (Option String) :=
  if isBrowser w then
    if jsStartsWith key NEXT_PUBLIC_ = false then
      .error (.error (accessDeniedMessage key))
    else
      .ok (jsNullish (lookupEnv (storeOf w) key) d)
  else
    .ok (jsNullish (lookupEnv w.penv key) d)
where
  /-- The store `window[PUBLIC_ENV_KEY]` (empty when the world has none;
  `env` only reads it under `isBrowser`, where it exists). -/
  storeOf (w : World) : EnvMap :=
    match w.window with
    | some (some st) => st
    | _ => []

/-- `requireEnv` from `src/script/env.ts` (lines 151-160): delegate to
`env(key)` and throw `MissingRequired` when the result is `undefined`. -/
def requireEnv (w : World) (key : String) : Except JsError String :=
  match env w key none with
  | .error e => .error e
  | .ok none => .error (.error (missingRequiredMessage key))
  | .ok (some v) => .ok v

/-- `serverOnly` from `src/script/env.ts` (lines 223-230): when `window`
exists (`IS_BROWSER`) return the fallback unconditionally; otherwise read
`process.env[key] ?? fallback`. It never throws, which the `Except` result
makes visible: every branch is `.ok`. -/
def serverOnly (w : World) (key : String) (fallback : Option String) :
    Except JsError (Option String) :=
  if IS_BROWSER w then
    .ok fallback
  else
    .ok (jsNullish (lookupEnv w.penv key) fallback)

/-! ## Resolver claims -/

/-- Looking a key up in the public filter's output: the value survives
exactly when the key passes the case-sensitive public test. -/
theorem lookupEnv_getPublicEnv (penv : EnvMap) (k : String) :
    lookupEnv (getPublicEnv penv) k
      = if jsStartsWith k NEXT_PUBLIC_ then lookupEnv penv k else none := by
  induction penv with
  | nil => simp [lookupEnv, getPublicEnv]
  | cons p t ih =>
    obtain ⟨k', v⟩ := p
    by_cases hk : k' = k
    · subst hk
      by_cases hp : jsStartsWith k' NEXT_PUBLIC_
      · simp [getPublicEnv, lookupEnv, List.filter_cons, hp, List.lookup_cons]
      · simp only [getPublicEnv, lookupEnv, List.filter_cons, List.lookup_cons] at *
        simp [hp, ih]
    · have hbeq : (k == k') = false := beq_eq_false_iff_ne.mpr (fun hh => hk hh.symm)
      have hstep : List.lookup k ((k', v) :: t) = List.lookup k t := by
        simp [List.lookup_cons, hbeq]
      by_cases hp : jsStartsWith k' NEXT_PUBLIC_
      · simpa [getPublicEnv, lookupEnv, List.filter_cons, hp, hstep, List.lookup_cons,
          hbeq] using ih
      · simpa [getPublicEnv, lookupEnv, List.filter_cons, hp, hstep] using ih

/-- C2, counterexample. The claim quantifies over every environment map and
every key, but a key that satisfies the visibility rule while being absent
from the map never appears in `getPublicEnv`'s output: at the empty map and
the key `NEXT_PUBLIC_A` the claimed first "iff" is `False ↔ True`. -/
theorem getPublicEnv_absent_key_counterexample :
    ¬(((lookupEnv (getPublicEnv ([] : EnvMap)) "NEXT_PUBLIC_A").isSome = true)
        ↔ jsStartsWith "NEXT_PUBLIC_A" NEXT_PUBLIC_ = true) := by
  decide

/-- C2, amended: for every key *bound in the map*, the key appears in
`getPublicEnv`'s output iff it starts with the literal case-sensitive
marker `NEXT_PUBLIC_`; and (for every key, bound or not) a
consuming-boundary `env` call avoids the AccessDenied throw iff the key
starts with that same marker — one predicate gates both. -/
theorem visibility_symmetry_on_domain (penv st : EnvMap) (k : String) (d : Option String) :
    ((lookupEnv penv k).isSome →
      ((lookupEnv (getPublicEnv penv) k).isSome ↔ jsStartsWith k NEXT_PUBLIC_ = true))
    ∧ ((env (browserWorld st penv) k d ≠ .error (.error (accessDeniedMessage k)))
        ↔ jsStartsWith k NEXT_PUBLIC_ = true) := by
  constructor
  · intro hdom
    rw [lookupEnv_getPublicEnv]
    by_cases hp : jsStartsWith k NEXT_PUBLIC_ <;> simp [hp, hdom]
  · by_cases hp : jsStartsWith k NEXT_PUBLIC_ <;>
      simp [env, isBrowser, browserWorld, hp]

/-- C2 witness: the amended symmetry evaluated on the round-trip scenario
map of the spec. -/
theorem visibility_symmetry_on_domain_witness :
    ((lookupEnv (getPublicEnv [("NEXT_PUBLIC_FOO", "bar"), ("SECRET", "x")])
        "NEXT_PUBLIC_FOO").isSome
      ↔ jsStartsWith "NEXT_PUBLIC_FOO" NEXT_PUBLIC_ = true)
    ∧ ((env (browserWorld [("NEXT_PUBLIC_FOO", "bar")] []) "SECRET" none
          ≠ .error (.error (accessDeniedMessage "SECRET")))
        ↔ jsStartsWith "SECRET" NEXT_PUBLIC_ = true) :=
  ⟨(visibility_symmetry_on_domain [("NEXT_PUBLIC_FOO", "bar"), ("SECRET", "x")]
      [] "NEXT_PUBLIC_FOO" none).1 (by decide),
   (visibility_symmetry_on_domain [] [("NEXT_PUBLIC_FOO", "bar")] "SECRET" none).2⟩

/-- C4 (confirmed): `env` and `requireEnv` treat the empty string as a
defined value. On both boundaries an unset key makes `env` return the
default, a key set to the empty string makes `env` return the empty string
(never the default), and `requireEnv` does not throw MissingRequired for a
key set to the empty string. -/
theorem env_default_only_when_undefined (penv st : EnvMap) (k d : String) :
    (lookupEnv penv k = none → env (serverWorld penv) k (some d) = .ok (some d))
    ∧ (lookupEnv penv k = some "" →
        env (serverWorld penv) k (some d) = .ok (some "")
        ∧ requireEnv (serverWorld penv) k = .ok "")
    ∧ (jsStartsWith k NEXT_PUBLIC_ = true →
        (lookupEnv st k = none → env (browserWorld st penv) k (some d) = .ok (some d))
        ∧ (lookupEnv st k = some "" →
            env (browserWorld st penv) k (some d) = .ok (some "")
            ∧ requireEnv (browserWorld st penv) k = .ok "")) := by
  refine ⟨fun h => ?_, fun h => ⟨?_, ?_⟩, fun hp => ⟨fun h => ?_, fun h => ⟨?_, ?_⟩⟩⟩ <;>
    simp_all [env, env.storeOf, requireEnv, isBrowser, serverWorld, browserWorld, jsNullish]

/-- C4 witness: the theorem applied at `K` unset and at `K` set to the
empty string, on both boundaries. -/
theorem env_default_only_when_undefined_witness :
    env (serverWorld []) "K" (some "D") = .ok (some "D")
    ∧ env (serverWorld [("K", "")]) "K" (some "D") = .ok (some "")
    ∧ requireEnv (serverWorld [("K", "")]) "K" = .ok ""
    ∧ env (browserWorld [("NEXT_PUBLIC_K", "")] []) "NEXT_PUBLIC_K" (some "D")
        = .ok (some "")
    ∧ requireEnv (browserWorld [("NEXT_PUBLIC_K", "")] []) "NEXT_PUBLIC_K" = .ok "" :=
  ⟨(env_default_only_when_undefined [] [] "K" "D").1 (by decide),
   ((env_default_only_when_undefined [("K", "")] [] "K" "D").2.1 (by decide)).1,
   ((env_default_only_when_undefined [("K", "")] [] "K" "D").2.1 (by decide)).2,
   (((env_default_only_when_undefined [] [("NEXT_PUBLIC_K", "")] "NEXT_PUBLIC_K" "D").2.2
      (by decide)).2 (by decide)).1,
   (((env_default_only_when_undefined [] [("NEXT_PUBLIC_K", "")] "NEXT_PUBLIC_K" "D").2.2
      (by decide)).2 (by decide)).2⟩

/-- C8 (confirmed): `serverOnly` on the consuming boundary never throws and
returns the fallback without reading the store (the store's contents are
irrelevant to the result); on the producing boundary it reads
`process.env[key] ?? fallback` with no visibility gate on the key. -/
theorem serverOnly_boundary_behavior (penv st st' : EnvMap) (k : String)
    (fb : Option String) :
    serverOnly (browserWorld st penv) k fb = .ok fb
    ∧ serverOnly (browserWorld st penv) k fb = serverOnly (browserWorld st' penv) k fb
    ∧ serverOnly (serverWorld penv) k fb = .ok (jsNullish (lookupEnv penv k) fb) := by
  refine ⟨rfl, rfl, ?_⟩
  simp [serverOnly, IS_BROWSER, serverWorld]

/-- The MissingRequired and AccessDenied messages are distinct for every
key: their first characters differ. -/
theorem missingRequired_ne_accessDenied (k : String) :
    missingRequiredMessage k ≠ accessDeniedMessage k := by
  intro h
  have hd := congrArg (fun s => s.data.head?) h
  simp only [missingRequiredMessage, accessDeniedMessage, String.data_append,
    List.head?_append] at hd
  simp [List.head?] at hd

/-- C10 (confirmed): the boundary decision in `env` and `requireEnv` is the
presence of a truthy `window.__ENV` store, not of `window` itself. With a
window but no store, `env` reads `process.env` and never throws, and
`requireEnv` reads `process.env` and can only throw MissingRequired, never
AccessDenied; the AccessDenied gate fires only once the store exists. -/
theorem context_gate_requires_store (penv st : EnvMap) (k : String) (d : Option String) :
    isBrowser (bareWindowWorld penv) = false
    ∧ env (bareWindowWorld penv) k d = .ok (jsNullish (lookupEnv penv k) d)
    ∧ (∀ v, lookupEnv penv k = some v → requireEnv (bareWindowWorld penv) k = .ok v)
    ∧ (lookupEnv penv k = none →
        requireEnv (bareWindowWorld penv) k = .error (.error (missingRequiredMessage k)))
    ∧ requireEnv (bareWindowWorld penv) k ≠ .error (.error (accessDeniedMessage k))
    ∧ (jsStartsWith k NEXT_PUBLIC_ = false →
        env (browserWorld st penv) k d = .error (.error (accessDeniedMessage k))) := by
  refine ⟨rfl, ?_, fun v hv => ?_, fun h => ?_, ?_, fun hp => ?_⟩
  · simp [env, isBrowser, bareWindowWorld]
  · simp [requireEnv, env, isBrowser, bareWindowWorld, jsNullish, hv]
  · simp [requireEnv, env, isBrowser, bareWindowWorld, jsNullish, h]
  · cases hl : lookupEnv penv k with
    | none =>
      simp [requireEnv, env, isBrowser, bareWindowWorld, jsNullish, hl]
      exact missingRequired_ne_accessDenied k
    | some v =>
      simp [requireEnv, env, isBrowser, bareWindowWorld, jsNullish, hl]
  · simp [env, isBrowser, browserWorld, hp]

/-- C10 witness: with a window but no store, the non-public key `SECRET`
resolves from `process.env` without an AccessDenied throw. -/
theorem context_gate_requires_store_witness :
    requireEnv (bareWindowWorld [("SECRET", "x")]) "SECRET" = .ok "x"
    ∧ env (browserWorld [] [("SECRET", "x")]) "SECRET" none
        = .error (.error (accessDeniedMessage "SECRET")) :=
  ⟨(context_gate_requires_store [("SECRET", "x")] [] "SECRET" none).2.2.1 "x" (by decide),
   (context_gate_requires_store [("SECRET", "x")] [] "SECRET" none).2.2.2.2.2 (by decide)⟩

/-! ## ValueEscaper: `escapeJsonForHtml` from `src/helpers/escape-json-for-html.ts` -/

/-- Lowercase hexadecimal digit character for `n < 16`, as JavaScript's
escape sequences print them. -/
def toHexChar (n : Nat) : Char :=
  if n < 10 then Char.ofNat ('0'.toNat + n) else Char.ofNat ('a'.toNat + n - 10)

/-- `JSON.stringify`'s quoting of a single character inside a string
literal: `"` and `\` get a backslash escape, the control characters
backspace/tab/newline/form-feed/carriage-return get their short escapes,
every other control character below 0x20 gets a `\u00XX` escape, and all
remaining characters pass through raw. -/
def jsonQuoteChar (c : Char) : List Char :=
  if c = '"' then ['\\', '"']
  else if c = '\\' then ['\\', '\\']
  else if c.toNat = 8 then ['\\', 'b']
  else if c.toNat = 9 then ['\\', 't']
  else if c.toNat = 10 then ['\\', 'n']
  else if c.toNat = 12 then ['\\', 'f']
  else if c.toNat = 13 then ['\\', 'r']
  else if c.toNat < 32 then
    ['\\', 'u', '0', '0', toHexChar (c.toNat / 16), toHexChar (c.toNat % 16)]
  else [c]

/-- Replace every character of a list by a list of characters and
concatenate: the character-level engine behind both `JSON.stringify`'s
string quoting and `String.prototype.replace` with a single-character
global pattern. -/
def expandChars (f : Char → List Char) : List Char → List Char
  | [] => []
  | c :: cs => f c ++ expandChars f cs

/-- `JSON.stringify` of one string: a quoted, per-character escaped
literal. -/
def jsonQuoteStr (s : String) : List Char :=
  '"' :: (expandChars jsonQuoteChar s.data ++ ['"'])

/-- One `"key":"value"` member of the serialized object. -/
def stringifyPair (p : String × String) : List Char :=
  jsonQuoteStr p.1 ++ ':' :: jsonQuoteStr p.2

/-- The members after the first, each preceded by a comma. -/
def stringifyRest : EnvMap → List Char
  | [] => []
  | p :: ps => ',' :: (stringifyPair p ++ stringifyRest ps)

/-- All members of the serialized object, comma-separated. -/
def stringifyMembers : EnvMap → List Char
  | [] => []
  | p :: ps => stringifyPair p ++ stringifyRest ps

/-- `JSON.stringify` of a flat string-to-string object, as the character
list `{"k":"v",...}` (no whitespace, members in iteration order). -/
def jsonStringifyL (m : EnvMap) : List Char :=
  '{' :: (stringifyMembers m ++ ['}'])

/-- The replacement text `'\\u003c'` of the first `.replace` call. -/
def escLT : List Char := ['\\', 'u', '0', '0', '3', 'c']

/-- The replacement text `'\\u003e'` of the second `.replace` call. -/
def escGT : List Char := ['\\', 'u', '0', '0', '3', 'e']

/-- The replacement text `'\\u0026'` of the third `.replace` call. -/
def escAMP : List Char := ['\\', 'u', '0', '0', '2', '6']

/-- The replacement text `'\\u0027'` of the fourth `.replace` call. -/
def escAPOS : List Char := ['\\', 'u', '0', '0', '2', '7']

/-- `s.replace(/t/g, r)` for a one-character pattern `t`: every occurrence
of `t` becomes `r`, every other character stays. -/
def replaceCharAll (t : Char) (r : List Char) (l : List Char) : List Char :=
  expandChars (fun c => if c = t then r else [c]) l

/-- `escapeJsonForHtml` from `src/helpers/escape-json-for-html.ts` (lines
27-33) on the character-list level: `JSON.stringify(obj)` followed by the
four sequential global replaces of `<`, `>`, `&`, `'`. -/
def escapeJsonForHtmlL (m : EnvMap) : List Char :=
  replaceCharAll '\'' escAPOS
    (replaceCharAll '&' escAMP
      (replaceCharAll '>' escGT
        (replaceCharAll '<' escLT (jsonStringifyL m))))

/-- `escapeJsonForHtml` as a string. Total by construction, as the source
is for string-valued maps (`JSON.stringify` cannot throw on them). -/
def escapeJsonForHtml (m : EnvMap) : String :=
  String.mk (escapeJsonForHtmlL m)

/-- The four HTML-escape replaces fused into one per-character map. -/
def htmlEscapeChar (c : Char) : List Char :=
  if c = '<' then escLT
  else if c = '>' then escGT
  else if c = '&' then escAMP
  else if c = '\'' then escAPOS
  else [c]

/-- What one original character of a key or value becomes in
`escapeJsonForHtml`'s output: `JSON.stringify`'s quoting followed by the
HTML-escape pass. -/
def emitChar (c : Char) : List Char :=
  expandChars htmlEscapeChar (jsonQuoteChar c)

/-- `expandChars` distributes over list append. -/
theorem expandChars_append (f : Char → List Char) (l₁ l₂ : List Char) :
    expandChars f (l₁ ++ l₂) = expandChars f l₁ ++ expandChars f l₂ := by
  induction l₁ with
  | nil => rfl
  | cons c cs ih => simp [expandChars, ih]

/-- Two `expandChars` passes fuse into one pass with the composed map. -/
theorem expandChars_comp (g f : Char → List Char) (l : List Char) :
    expandChars g (expandChars f l) = expandChars (fun c => expandChars g (f c)) l := by
  induction l with
  | nil => rfl
  | cons c cs ih => simp [expandChars, expandChars_append, ih]

/-- The four sequential `.replace` passes equal one per-character
HTML-escape map: each replacement text contains none of the four target
characters, so later passes leave earlier replacements intact. -/
theorem replace_four_eq_html (l : List Char) :
    replaceCharAll '\'' escAPOS
        (replaceCharAll '&' escAMP
          (replaceCharAll '>' escGT
            (replaceCharAll '<' escLT l)))
      = expandChars htmlEscapeChar l := by
  simp only [replaceCharAll, expandChars_comp]
  congr 1
  funext c
  by_cases h1 : c = '<'
  · subst h1; decide
  by_cases h2 : c = '>'
  · subst h2; decide
  by_cases h3 : c = '&'
  · subst h3; decide
  by_cases h4 : c = '\''
  · subst h4; decide
  simp [expandChars, htmlEscapeChar, h1, h2, h3, h4]

/-- `escapeJsonForHtml`'s character list is the HTML-escape map applied to
the serialized JSON text. -/
theorem escapeJsonForHtmlL_eq (m : EnvMap) :
    escapeJsonForHtmlL m = expandChars htmlEscapeChar (jsonStringifyL m) :=
  replace_four_eq_html _

/-- No character produced by the HTML-escape map is one of the four raw
unsafe characters. -/
theorem htmlEscapeChar_no_unsafe (c c' : Char) (h : c' ∈ htmlEscapeChar c) :
    c' ≠ '<' ∧ c' ≠ '>' ∧ c' ≠ '&' ∧ c' ≠ '\'' := by
  by_cases h1 : c = '<'
  · subst h1
    simp [htmlEscapeChar, escLT] at h
    rcases h with rfl | rfl | rfl | rfl | rfl | rfl <;> decide
  by_cases h2 : c = '>'
  · subst h2
    simp [htmlEscapeChar, escGT, h1] at h
    rcases h with rfl | rfl | rfl | rfl | rfl | rfl <;> decide
  by_cases h3 : c = '&'
  · subst h3
    simp [htmlEscapeChar, escAMP, h1, h2] at h
    rcases h with rfl | rfl | rfl | rfl | rfl | rfl <;> decide
  by_cases h4 : c = '\''
  · subst h4
    simp [htmlEscapeChar, escAPOS, h1, h2, h3] at h
    rcases h with rfl | rfl | rfl | rfl | rfl | rfl <;> decide
  simp [htmlEscapeChar, h1, h2, h3, h4] at h
  subst h
  exact ⟨h1, h2, h3, h4⟩

/-- No character of an HTML-escaped text is one of the four raw unsafe
characters. -/
theorem expandChars_html_no_unsafe (l : List Char) (c' : Char)
    (h : c' ∈ expandChars htmlEscapeChar l) :
    c' ≠ '<' ∧ c' ≠ '>' ∧ c' ≠ '&' ∧ c' ≠ '\'' := by
  induction l with
  | nil => simp [expandChars] at h
  | cons c cs ih =>
    simp only [expandChars, List.mem_append] at h
    rcases h with h | h
    · exact htmlEscapeChar_no_unsafe c c' h
    · exact ih h

/-! ## A `JSON.parse`-equivalent decoder for the emitted object shape -/

/-- Value of one hexadecimal digit character, both cases accepted, as
`JSON.parse` reads `\uXXXX` escapes. -/
def hexVal (c : Char) : Option Nat :=
  if '0' ≤ c ∧ c ≤ '9' then some (c.toNat - '0'.toNat)
  else if 'a' ≤ c ∧ c ≤ 'f' then some (c.toNat - 'a'.toNat + 10)
  else if 'A' ≤ c ∧ c ≤ 'F' then some (c.toNat - 'A'.toNat + 10)
  else none

/-- Value of a four-hex-digit escape body. -/
def hexQuad (a b c d : Char) : Option Nat := do
  let va ← hexVal a
  let vb ← hexVal b
  let vc ← hexVal c
  let vd ← hexVal d
  return ((va * 16 + vb) * 16 + vc) * 16 + vd

/-- The single-character JSON string escapes `\" \\ \/ \b \f \n \r \t`. -/
def unescapeShort (c : Char) : Option Char :=
  if c = '"' then some '"'
  else if c = '\\' then some '\\'
  else if c = '/' then some '/'
  else if c = 'b' then some (Char.ofNat 8)
  else if c = 'f' then some (Char.ofNat 12)
  else if c = 'n' then some (Char.ofNat 10)
  else if c = 'r' then some (Char.ofNat 13)
  else if c = 't' then some (Char.ofNat 9)
  else none

/-- JSON string-body decoding after an opening quote, exactly as
`JSON.parse` reads it: raw characters up to the closing quote, with
`\uXXXX` and the short escapes decoded and raw control characters below
0x20 rejected. -/
def parseStringBody (acc : List Char) : List Char → Option (String × List Char)
  | '"' :: rest => some (String.mk acc.reverse, rest)
  | '\\' :: 'u' :: a :: b :: c :: d :: rest =>
    match hexQuad a b c d with
    | some n => parseStringBody (Char.ofNat n :: acc) rest
    | none => none
  | '\\' :: e :: rest =>
    match unescapeShort e with
    | some ch => parseStringBody (ch :: acc) rest
    | none => none
  | ['\\'] => none
  | c :: rest => if c.toNat < 32 then none else parseStringBody (c :: acc) rest
  | [] => none

/-- The member loop of the object decoder: parse `"key":"value"` pairs
separated by commas, with explicit fuel (one unit per member). -/
def parseMembers (fuel : Nat) (acc : List (String × String)) (l : List Char) :
    Option (List (String × String) × List Char) :=
  match fuel with
  | 0 => none
  | fuel + 1 =>
    match l with
    | '"' :: rest =>
      match parseStringBody [] rest with
      | some (k, ':' :: '"' :: rest₂) =>
        match parseStringBody [] rest₂ with
        | some (v, ',' :: rest₃) => parseMembers fuel ((k, v) :: acc) rest₃
        | some (v, rest₃) => some (((k, v) :: acc).reverse, rest₃)
        | none => none
      | _ => none
    | _ => none

/-- The `JSON.parse`-equivalent decoder restricted to the shape
`escapeJsonForHtml` emits: a flat object with string keys and string
values, no surrounding whitespace. On that shape it agrees with
`JSON.parse` member for member (and a genuine map has no duplicate keys,
so last-wins collapsing never differs). -/
def parseEnvObject (s : String) : Option (List (String × String)) :=
  match s.data with
  | '{' :: rest =>
    match rest with
    | ['}'] => some []
    | _ =>
      match parseMembers (rest.length + 1) [] rest with
      | some (ms, ['}']) => some ms
      | _ => none
  | _ => none

/-- `hexVal` reads back the digit `toHexChar` prints. -/
theorem hexVal_toHexChar (n : Nat) (h : n < 16) : hexVal (toHexChar n) = some n := by
  interval_cases n <;> decide

/-- Hex digit characters are not HTML-unsafe, so the HTML pass fixes them. -/
theorem htmlEscapeChar_toHexChar (n : Nat) (h : n < 16) :
    htmlEscapeChar (toHexChar n) = [toHexChar n] := by
  interval_cases n <;> decide

/-- A character equals the character of its code point. -/
theorem ofNat_of_toNat_eq (c : Char) (n : Nat) (hb : c.toNat = n) : c = Char.ofNat n := by
  rw [← hb, Char.ofNat_toNat]

/-- Decoding inverts the per-character emission: one escaped (or raw)
character of the output decodes back to the original character. -/
theorem parseStringBody_emitChar (c : Char) (acc rest : List Char) :
    parseStringBody acc (emitChar c ++ rest) = parseStringBody (c :: acc) rest := by
  by_cases h1 : c = '"'
  · subst h1; rfl
  by_cases h2 : c = '\\'
  · subst h2; rfl
  by_cases hb : c.toNat = 8
  · rw [ofNat_of_toNat_eq c 8 hb]; rfl
  by_cases ht : c.toNat = 9
  · rw [ofNat_of_toNat_eq c 9 ht]; rfl
  by_cases hn : c.toNat = 10
  · rw [ofNat_of_toNat_eq c 10 hn]; rfl
  by_cases hf : c.toNat = 12
  · rw [ofNat_of_toNat_eq c 12 hf]; rfl
  by_cases hr : c.toNat = 13
  · rw [ofNat_of_toNat_eq c 13 hr]; rfl
  by_cases hc : c.toNat < 32
  · -- other control characters: a \u00XX escape
    have hdiv : c.toNat / 16 < 16 := by omega
    have hmod : c.toNat % 16 < 16 := by omega
    have e1 : htmlEscapeChar '\\' = ['\\'] := by decide
    have e2 : htmlEscapeChar 'u' = ['u'] := by decide
    have e3 : htmlEscapeChar '0' = ['0'] := by decide
    have hemit : emitChar c
        = ['\\', 'u', '0', '0', toHexChar (c.toNat / 16), toHexChar (c.toNat % 16)] := by
      simp [emitChar, jsonQuoteChar, h1, h2, hb, ht, hn, hf, hr, hc, expandChars,
        htmlEscapeChar_toHexChar _ hdiv, htmlEscapeChar_toHexChar _ hmod, e1, e2, e3]
    have h0 : hexVal '0' = some 0 := by decide
    have hq : hexQuad '0' '0' (toHexChar (c.toNat / 16)) (toHexChar (c.toNat % 16))
        = some c.toNat := by
      simp [hexQuad, h0, hexVal_toHexChar _ hdiv, hexVal_toHexChar _ hmod]
      omega
    rw [hemit, List.cons_append, List.cons_append, List.cons_append, List.cons_append,
      List.cons_append, List.cons_append, List.nil_append]
    simp only [parseStringBody, hq]
    rw [Char.ofNat_toNat]
  -- now c.toNat ≥ 32
  by_cases g1 : c = '<'
  · subst g1; rfl
  by_cases g2 : c = '>'
  · subst g2; rfl
  by_cases g3 : c = '&'
  · subst g3; rfl
  by_cases g4 : c = '\''
  · subst g4; rfl
  -- plain character
  have hemit : emitChar c = [c] := by
    simp [emitChar, jsonQuoteChar, h1, h2, hb, ht, hn, hf, hr, hc, expandChars,
      htmlEscapeChar, g1, g2, g3, g4]
  rw [hemit, List.cons_append, List.nil_append]
  rw [parseStringBody.eq_def]
  simp [h1, h2, hc]

/-- Decoding a fully escaped character run stops exactly at the closing
quote and recovers the run. -/
theorem parseStringBody_emitAll (cs : List Char) : ∀ (acc rest : List Char),
    parseStringBody acc (expandChars emitChar cs ++ '"' :: rest)
      = some (String.mk (acc.reverse ++ cs), rest) := by
  induction cs with
  | nil => intro acc rest; simp [expandChars, parseStringBody]
  | cons c cs ih =>
    intro acc rest
    rw [expandChars, List.append_assoc, parseStringBody_emitChar, ih]
    simp

/-- The escaped output text of one quoted string. -/
def emitStr (s : String) : List Char :=
  '"' :: (expandChars emitChar s.data ++ ['"'])

/-- The escaped output text of one `"key":"value"` member. -/
def emitPair (p : String × String) : List Char :=
  emitStr p.1 ++ ':' :: emitStr p.2

/-- The escaped output text of the members after the first. -/
def emitRest : EnvMap → List Char
  | [] => []
  | p :: ps => ',' :: (emitPair p ++ emitRest ps)

/-- Rebuilding a string from its characters is the identity. -/
theorem mk_data_eq (s : String) : String.mk s.data = s := rfl

/-- String form of `parseStringBody_emitAll`. -/
theorem parseStringBody_emitStr (s : String) (acc tail : List Char) :
    parseStringBody acc (expandChars emitChar s.data ++ '"' :: tail)
      = some (String.mk (acc.reverse ++ s.data), tail) :=
  parseStringBody_emitAll s.data acc tail

/-- The member loop decodes an escaped member list back to the original
pairs, for any sufficient fuel. -/
theorem parseMembers_emit (ps : EnvMap) : ∀ (fuel : Nat) (acc : EnvMap)
    (p : String × String) (tail : List Char), ps.length + 1 ≤ fuel →
    parseMembers fuel acc (emitPair p ++ (emitRest ps ++ '}' :: tail))
      = some (acc.reverse ++ p :: ps, '}' :: tail) := by
  induction ps with
  | nil =>
    intro fuel acc p tail hf
    obtain ⟨f, rfl⟩ : ∃ f, fuel = f + 1 := ⟨fuel - 1, by omega⟩
    simp only [emitPair, emitStr, emitRest, List.nil_append, List.cons_append,
      List.append_assoc]
    simp only [parseMembers]
    rw [parseStringBody_emitAll]
    simp only [List.reverse_nil, List.nil_append, mk_data_eq, List.cons_append]
    rw [parseStringBody_emitAll]
    simp [mk_data_eq]
  | cons q qs ih =>
    intro fuel acc p tail hf
    obtain ⟨f, rfl⟩ : ∃ f, fuel = f + 1 := ⟨fuel - 1, by omega⟩
    simp only [emitPair, emitStr, emitRest, List.cons_append, List.append_assoc]
    simp only [parseMembers]
    rw [parseStringBody_emitAll]
    simp only [List.reverse_nil, List.nil_append, mk_data_eq, List.cons_append]
    rw [parseStringBody_emitAll]
    simp only [List.reverse_nil, List.nil_append, mk_data_eq]
    have hfq : qs.length + 1 ≤ f := by simpa using hf
    have hrec := ih f ((p.1, p.2) :: acc) q tail hfq
    simp only [emitPair, emitStr, List.cons_append, List.append_assoc,
      List.nil_append] at hrec
    rw [hrec]
    simp

/-- The HTML pass over a JSON-quoted string body is the fused emission. -/
theorem html_quoteBody (s : String) :
    expandChars htmlEscapeChar (expandChars jsonQuoteChar s.data)
      = expandChars emitChar s.data := by
  rw [expandChars_comp]; rfl

/-- The HTML pass over a serialized member is its escaped output text. -/
theorem html_pair (p : String × String) :
    expandChars htmlEscapeChar (stringifyPair p) = emitPair p := by
  have hq : htmlEscapeChar '"' = ['"'] := by decide
  have hc : htmlEscapeChar ':' = [':'] := by decide
  simp [stringifyPair, emitPair, jsonQuoteStr, emitStr, expandChars_append,
    expandChars, hq, hc, html_quoteBody]

/-- The HTML pass over the serialized member tail. -/
theorem html_rest (ps : EnvMap) :
    expandChars htmlEscapeChar (stringifyRest ps) = emitRest ps := by
  induction ps with
  | nil => rfl
  | cons p t ih =>
    have hc : htmlEscapeChar ',' = [','] := by decide
    show expandChars htmlEscapeChar (',' :: (stringifyPair p ++ stringifyRest t))
      = ',' :: (emitPair p ++ emitRest t)
    rw [expandChars, expandChars_append, html_pair, ih, hc]
    rfl

/-- Each member contributes at least one character (its comma), so the
member count bounds the escaped tail length. -/
theorem emitRest_length (ps : EnvMap) : ps.length ≤ (emitRest ps).length := by
  induction ps with
  | nil => simp [emitRest]
  | cons p t ih => simp [emitRest]; omega

/-- The characters of the escaper output, as the fused HTML pass over the
serialized JSON text. -/
theorem escapeJsonForHtml_data (m : EnvMap) :
    (escapeJsonForHtml m).data = expandChars htmlEscapeChar (jsonStringifyL m) :=
  escapeJsonForHtmlL_eq m

/-- C1 (confirmed): for every string-to-string map, `escapeJsonForHtml`
returns (total by construction) a string with no raw occurrence of `<`,
`>`, `&` or `'`, and `JSON.parse`-equivalent decoding of the output — its
`\uXXXX` numeric escapes included — reproduces every original key and
value exactly. -/
theorem escapeJsonForHtml_safe_roundtrip (m : EnvMap) :
    (∀ c ∈ (escapeJsonForHtml m).data, c ≠ '<' ∧ c ≠ '>' ∧ c ≠ '&' ∧ c ≠ '\'')
    ∧ parseEnvObject (escapeJsonForHtml m) = some m := by
  constructor
  · intro c hc
    rw [escapeJsonForHtml_data] at hc
    exact expandChars_html_no_unsafe _ c hc
  · match m with
    | [] => decide
    | p :: ps =>
      have hob : htmlEscapeChar '{' = ['{'] := by decide
      have hcb : htmlEscapeChar '}' = ['}'] := by decide
      have hdata : (escapeJsonForHtml (p :: ps)).data
          = '{' :: (emitPair p ++ (emitRest ps ++ '}' :: [])) := by
        rw [escapeJsonForHtml_data]
        show expandChars htmlEscapeChar
            ('{' :: ((stringifyPair p ++ stringifyRest ps) ++ ['}'])) = _
        rw [expandChars, expandChars_append, expandChars_append, html_pair,
          html_rest, hob]
        have hone : expandChars htmlEscapeChar ['}'] = ['}'] := by decide
        rw [hone]
        simp
      rw [parseEnvObject, hdata]
      have hlen : ps.length + 1 ≤ (emitPair p ++ (emitRest ps ++ '}' :: [])).length + 1 := by
        have := emitRest_length ps
        simp [List.length_append]
        omega
      have hparse := parseMembers_emit ps ((emitPair p ++ (emitRest ps ++ '}' :: [])).length + 1)
        [] p [] hlen
      simp only [emitPair, emitStr, List.cons_append, List.append_assoc,
        List.nil_append] at hparse ⊢
      rw [hparse]
      simp

/-! ## Transport/Injector: `EnvScript` from `src/script/env-script.tsx` -/

/-- The `nonce` prop of `EnvScript`: absent, a literal string, or a
`NonceConfig` object `{ headerKey }` naming a request header to read. -/
inductive NonceProp where
  | absent
  | literal (s : String)
  | headerConfig (headerKey : String)

/-- A JavaScript thrown value: an `Error` instance with its message, or
any non-`Error` value (the `error instanceof Error` test distinguishes
them). -/
inductive JsThrown where
  | error (message : String)
  | nonError
deriving DecidableEq, Repr

/-- The outcome the `await headers()` call presents to `EnvScript`: a
throw, or a header store; `.ok none` stands for a falsy store or one
without a usable `get` (the code's defensive
`headerStore && typeof headerStore.get === 'function'` check). A store is
a header-name-to-value map; `get` returning `none` is `null ?? undefined`. -/
abbrev HeadersOutcome := Except JsThrown (Option (String → Option String))

/-- The `isOutsideRequestScope` classification from
`src/script/env-script.tsx` (lines 158-162): the thrown value is an
`Error` whose message contains one of the three marker substrings. -/
def isOutsideRequestScope (e : JsThrown) : Bool :=
  match e with
  | .error msg =>
    jsIncludes msg "outside a request scope"
      || jsIncludes msg "was called outside a request scope"
      || jsIncludes msg "Dynamic server usage"
  | .nonError => false

/-- The nonce-resolution block of `EnvScript` (lines 146-171): a header
descriptor reads the header store, swallowing exactly the
outside-request-scope failure into "no nonce" and rethrowing every other
throw; a literal string is used as-is; an absent prop yields no nonce. -/
def resolveNonceString (nonce : NonceProp) (ho : HeadersOutcome) :
    Except JsThrown (Option String) :=
  match nonce with
  | .headerConfig hk =>
    match ho with
    | .ok (some get) => .ok (get hk)
    | .ok none => .ok none
    | .error e => if isOutsideRequestScope e then .ok none else .error e
  | .literal s => .ok (some s)
  | .absent => .ok none

/-- The artifact `EnvScript` renders: the executable script payload (the
`dangerouslySetInnerHTML` text), the nonce attribute, and whether the
Next.js `Script` component (vs a plain `script` tag) carries it. -/
structure ScriptArtifact where
  payload : String
  nonce : Option String
  usesNextScript : Bool
deriving DecidableEq, Repr

/-- The payload template of `EnvScript` (line 175):
`window['${PUBLIC_ENV_KEY}'] = Object.freeze(${escapeJsonForHtml(env)})`. -/
def envScriptPayload (e : EnvMap) : String :=
  "window['" ++ PUBLIC_ENV_KEY ++ "'] = Object.freeze(" ++ escapeJsonForHtml e ++ ")"

/-- `EnvScript` from `src/script/env-script.tsx` (lines 140-187): resolve
the nonce (possibly rethrowing), then render the payload into a plain
`script` tag when `disableNextScript` is set, a Next.js `Script` component
otherwise. -/
def EnvScript (e : EnvMap) (nonce : NonceProp) (disableNextScript : Bool)
    (ho : HeadersOutcome) : Except JsThrown ScriptArtifact :=
  match resolveNonceString nonce ho with
  | .error err => .error err
  | .ok n =>
    .ok { payload := envScriptPayload e, nonce := n,
          usesNextScript := !disableNextScript }

/-- The payload template with the global identifier folded in. -/
theorem envScriptPayload_eq (e : EnvMap) :
    envScriptPayload e
      = "window['__ENV'] = Object.freeze(" ++ escapeJsonForHtml e ++ ")" := by
  have hlit : ("window['" : String) ++ PUBLIC_ENV_KEY ++ "'] = Object.freeze("
      = "window['__ENV'] = Object.freeze(" := by decide
  rw [envScriptPayload, hlit]

/-- C3 (confirmed): whatever the nonce option, emission strategy and
header outcome, whenever `EnvScript` produces an artifact its executable
payload is exactly the assignment of the frozen, escaped JSON object
literal to the well-known global:
`window['__ENV'] = Object.freeze(<escapeJsonForHtml output>)`. -/
theorem envScript_payload_shape (e : EnvMap) (nonce : NonceProp) (dns : Bool)
    (ho : HeadersOutcome) (a : ScriptArtifact)
    (h : EnvScript e nonce dns ho = .ok a) :
    a.payload = "window['__ENV'] = Object.freeze(" ++ escapeJsonForHtml e ++ ")" := by
  rw [EnvScript] at h
  cases hr : resolveNonceString nonce ho with
  | error err => rw [hr] at h; exact absurd h (by simp)
  | ok n =>
    rw [hr] at h
    simp only [Except.ok.injEq] at h
    rw [← h, envScriptPayload_eq]

/-- C3 witness: a concrete artifact produced without a nonce carries
exactly the template payload. -/
theorem envScript_payload_shape_witness :
    (⟨envScriptPayload [("NEXT_PUBLIC_FOO", "bar")], none, true⟩ : ScriptArtifact).payload
      = "window['__ENV'] = Object.freeze("
          ++ escapeJsonForHtml [("NEXT_PUBLIC_FOO", "bar")] ++ ")" :=
  envScript_payload_shape [("NEXT_PUBLIC_FOO", "bar")] .absent false (.ok none) _ rfl

/-- C7 (confirmed): with a header-lookup nonce descriptor, a lookup throw
classified as outside-request-scope is swallowed and the artifact is
produced with no nonce; every other lookup throw propagates to the
caller unchanged; a literal string nonce is attached unchanged (and a
non-`Error` throw is never swallowed, since the classification requires an
`Error`). -/
theorem nonce_failure_handling (e : EnvMap) (hk lit : String) (dns : Bool)
    (th : JsThrown) (ho : HeadersOutcome) :
    (isOutsideRequestScope th = true →
      EnvScript e (.headerConfig hk) dns (.error th)
        = .ok ⟨envScriptPayload e, none, !dns⟩)
    ∧ (isOutsideRequestScope th = false →
      EnvScript e (.headerConfig hk) dns (.error th) = .error th)
    ∧ isOutsideRequestScope .nonError = false
    ∧ EnvScript e (.literal lit) dns ho
        = .ok ⟨envScriptPayload e, some lit, !dns⟩ := by
  refine ⟨fun h => ?_, fun h => ?_, rfl, ?_⟩
  · simp [EnvScript, resolveNonceString, h]
  · simp [EnvScript, resolveNonceString, h]
  · simp [EnvScript, resolveNonceString]

/-- C7 witness: the Next.js outside-request-scope message is swallowed
into a nonce-free artifact, an unrelated error propagates, and a literal
nonce is attached unchanged. -/
theorem nonce_failure_handling_witness :
    EnvScript [] (.headerConfig "x-nonce") false
        (.error (.error "headers was called outside a request scope"))
      = .ok ⟨envScriptPayload [], none, true⟩
    ∧ EnvScript [] (.headerConfig "x-nonce") false (.error (.error "boom"))
      = .error (.error "boom")
    ∧ EnvScript [] (.literal "abc123") false (.ok none)
      = .ok ⟨envScriptPayload [], some "abc123", true⟩ :=
  ⟨(nonce_failure_handling [] "x-nonce" "abc123" false
      (.error "headers was called outside a request scope") (.ok none)).1 (by decide),
   (nonce_failure_handling [] "x-nonce" "abc123" false
      (.error "boom") (.ok none)).2.1 (by decide),
   (nonce_failure_handling [] "x-nonce" "abc123" false
      (.error "boom") (.ok none)).2.2.2⟩

/-! ## TypedParsers: `envParsers` from `src/script/parsers.ts` -/

/-- A JavaScript number that a string conversion can produce, with the
numeral's exact value as a rational (idealizing away IEEE-754 rounding,
which no claim here depends on). `NaN` is represented as `none` of
`Option JsNum` at use sites, mirroring the `Number.isNaN` test. -/
inductive JsNum where
  | finite (q : ℚ)
  | posInf
  | negInf
deriving DecidableEq, Repr

/-- Negation of a JavaScript number (for a leading `-` sign). -/
def negJsNum : JsNum → JsNum
  | .finite q => .finite (-q)
  | .posInf => .negInf
  | .negInf => .posInf

/-- The JavaScript WhiteSpace and LineTerminator characters that
`Number(string)` strips from both ends. -/
def jsWhitespaceChar (c : Char) : Bool :=
  c.toNat = 9 || c.toNat = 10 || c.toNat = 11 || c.toNat = 12 || c.toNat = 13
    || c.toNat = 32 || c.toNat = 160 || c.toNat = 0x1680
    || (0x2000 ≤ c.toNat && c.toNat ≤ 0x200A)
    || c.toNat = 0x2028 || c.toNat = 0x2029 || c.toNat = 0x202F
    || c.toNat = 0x205F || c.toNat = 0x3000 || c.toNat = 0xFEFF

/-- Strip JavaScript whitespace from both ends of a character list. -/
def jsTrimL (l : List Char) : List Char :=
  ((l.dropWhile jsWhitespaceChar).reverse.dropWhile jsWhitespaceChar).reverse

/-- Decimal digit test. -/
def isDigitChar (c : Char) : Bool := '0' ≤ c && c ≤ '9'

/-- Value of a decimal digit run (most significant first). -/
def digitsVal (ds : List Char) : Nat :=
  ds.foldl (fun a c => a * 10 + (c.toNat - '0'.toNat)) 0

/-- Split a leading decimal digit run off a character list. -/
def takeDigitsSpan (l : List Char) : List Char × List Char :=
  (l.takeWhile isDigitChar, l.dropWhile isDigitChar)

/-- Value of a binary digit. -/
def binVal (c : Char) : Option Nat :=
  if c = '0' then some 0 else if c = '1' then some 1 else none

/-- Value of an octal digit. -/
def octVal (c : Char) : Option Nat :=
  if '0' ≤ c ∧ c ≤ '7' then some (c.toNat - '0'.toNat) else none

/-- Value of a non-empty digit run in a given radix; `none` when empty or
when any character is no digit of the radix. -/
def parseRadixNat (radix : Nat) (dv : Char → Option Nat) (l : List Char) : Option Nat :=
  if l.isEmpty then none
  else l.foldl (fun acc c => acc.bind (fun a => (dv c).map (fun d => a * radix + d))) (some 0)

/-- An optional ECMAScript ExponentPart filling the whole list: `none` for
a malformed or non-empty non-exponent tail, `some 0` for the empty list. -/
def parseExponentAll (l : List Char) : Option Int :=
  match l with
  | [] => some 0
  | e :: rest =>
    if e = 'e' ∨ e = 'E' then
      match rest with
      | '+' :: ds => if !ds.isEmpty && ds.all isDigitChar then some (digitsVal ds) else none
      | '-' :: ds =>
        if !ds.isEmpty && ds.all isDigitChar then some (-(digitsVal ds : Int)) else none
      | ds => if !ds.isEmpty && ds.all isDigitChar then some (digitsVal ds) else none
    else none

/-- Exact value of `intPart.fracDigits × 10^ex`. -/
def decValue (ip : Nat) (fracDs : List Char) (ex : Int) : ℚ :=
  ((ip : ℚ) + (digitsVal fracDs : ℚ) / (10 : ℚ) ^ fracDs.length) * (10 : ℚ) ^ ex

/-- An ECMAScript StrUnsignedDecimalLiteral other than `Infinity`,
consuming the whole list: digits, optional fraction, optional exponent. -/
def parseUnsignedDec (l : List Char) : Option ℚ :=
  match takeDigitsSpan l with
  | ([], rest) =>
    match rest with
    | '.' :: r2 =>
      match takeDigitsSpan r2 with
      | ([], _) => none
      | (fracDs, r3) => (parseExponentAll r3).map (decValue 0 fracDs)
    | _ => none
  | (intDs, rest) =>
    match rest with
    | '.' :: r2 =>
      match takeDigitsSpan r2 with
      | (fracDs, r3) => (parseExponentAll r3).map (decValue (digitsVal intDs) fracDs)
    | _ => (parseExponentAll rest).map (decValue (digitsVal intDs) [])

/-- An unsigned StrDecimalLiteral body: `Infinity` or a numeral. -/
def parseUnsignedNum (l : List Char) : Option JsNum :=
  if l = "Infinity".data then some .posInf
  else (parseUnsignedDec l).map .finite

/-- A StrDecimalLiteral with optional sign. -/
def parseSignedNum (l : List Char) : Option JsNum :=
  match l with
  | '+' :: r => parseUnsignedNum r
  | '-' :: r => (parseUnsignedNum r).map negJsNum
  | _ => parseUnsignedNum l

/-- ECMAScript `Number(string)` (the StringToNumber conversion): trim
JavaScript whitespace; empty means `0`; an unsigned `0x`/`0o`/`0b` radix
literal; otherwise a signed decimal literal or `Infinity`. `none` is
`NaN`. Values are exact rationals (no IEEE-754 rounding). -/
def jsStringToNumber (s : String) : Option JsNum :=
  match jsTrimL s.data with
  | [] => some (.finite 0)
  | '0' :: x :: rest =>
    if x = 'x' ∨ x = 'X' then (parseRadixNat 16 hexVal rest).map (fun n => .finite n)
    else if x = 'o' ∨ x = 'O' then (parseRadixNat 8 octVal rest).map (fun n => .finite n)
    else if x = 'b' ∨ x = 'B' then (parseRadixNat 2 binVal rest).map (fun n => .finite n)
    else parseSignedNum ('0' :: x :: rest)
  | t => parseSignedNum t

/-- A parsed JSON value, as `JSON.parse` produces (numbers idealized as
exact rationals). -/
inductive JsValue where
  | null
  | bool (b : Bool)
  | num (q : ℚ)
  | str (s : String)
  | arr (elems : List JsValue)
  | obj (members : List (String × JsValue))

/-- JSON insignificant whitespace (space, tab, newline, carriage return). -/
def jsonSkipWs : List Char → List Char
  | c :: cs =>
    if c.toNat = 32 ∨ c.toNat = 9 ∨ c.toNat = 10 ∨ c.toNat = 13 then jsonSkipWs cs
    else c :: cs
  | [] => []

/-- A JSON number per RFC 8259: optional minus, integer part without
leading zeros, optional fraction, optional exponent; leaves the rest. -/
def parseJsonNumber (l : List Char) : Option (ℚ × List Char) :=
  match l with
  | '-' :: r => (parseJsonUnsigned r).map (fun (q, rest) => (-q, rest))
  | _ => parseJsonUnsigned l
where
  /-- The unsigned part of a JSON number. -/
  parseJsonUnsigned (l : List Char) : Option (ℚ × List Char) :=
    match takeDigitsSpan l with
    | ([], _) => none
    | (intDs, rest) =>
      if intDs.length > 1 ∧ intDs.head? = some '0' then none
      else
        match rest with
        | '.' :: r2 =>
          match takeDigitsSpan r2 with
          | ([], _) => none
          | (fracDs, r3) =>
            (parseJsonExp r3).map (fun (ex, r4) => (decValue (digitsVal intDs) fracDs ex, r4))
        | _ =>
          (parseJsonExp rest).map (fun (ex, r4) => (decValue (digitsVal intDs) [] ex, r4))
  /-- An optional JSON exponent part, leaving the rest. -/
  parseJsonExp (l : List Char) : Option (Int × List Char) :=
    match l with
    | 'e' :: '+' :: r | 'E' :: '+' :: r => expDigits r
    | 'e' :: '-' :: r | 'E' :: '-' :: r =>
      (expDigits r).map (fun (n, rest) => (-n, rest))
    | 'e' :: r | 'E' :: r => expDigits r
    | _ => some (0, l)
  /-- One-or-more exponent digits, leaving the rest. -/
  expDigits (l : List Char) : Option (Int × List Char) :=
    match takeDigitsSpan l with
    | ([], _) => none
    | (ds, rest) => some ((digitsVal ds : Int), rest)

mutual

/-- One JSON value, by recursive descent with fuel (a unit per value; the
input length bounds the number of values, so the fuel at the top level
never runs out on accepted input). -/
def parseJsonValue (fuel : Nat) (l : List Char) : Option (JsValue × List Char) :=
  match fuel with
  | 0 => none
  | fuel + 1 =>
    match jsonSkipWs l with
    | 'n' :: 'u' :: 'l' :: 'l' :: r => some (.null, r)
    | 't' :: 'r' :: 'u' :: 'e' :: r => some (.bool true, r)
    | 'f' :: 'a' :: 'l' :: 's' :: 'e' :: r => some (.bool false, r)
    | '"' :: r => (parseStringBody [] r).map (fun (s, rest) => (.str s, rest))
    | '[' :: r =>
      match jsonSkipWs r with
      | ']' :: rest => some (.arr [], rest)
      | r2 => parseJsonElems fuel [] r2
    | '{' :: r =>
      match jsonSkipWs r with
      | '}' :: rest => some (.obj [], rest)
      | r2 => parseJsonPairs fuel [] r2
    | r => (parseJsonNumber r).map (fun (q, rest) => (.num q, rest))

/-- The non-empty element list of a JSON array, after its opening bracket. -/
def parseJsonElems (fuel : Nat) (acc : List JsValue) (l : List Char) :
    Option (JsValue × List Char) :=
  match fuel with
  | 0 => none
  | fuel + 1 =>
    match parseJsonValue fuel l with
    | some (v, rest) =>
      match jsonSkipWs rest with
      | ',' :: r2 => parseJsonElems fuel (v :: acc) r2
      | ']' :: r2 => some (.arr (v :: acc).reverse, r2)
      | _ => none
    | none => none

/-- The non-empty member list of a JSON object, after its opening brace. -/
def parseJsonPairs (fuel : Nat) (acc : List (String × JsValue)) (l : List Char) :
    Option (JsValue × List Char) :=
  match fuel with
  | 0 => none
  | fuel + 1 =>
    match jsonSkipWs l with
    | '"' :: r =>
      match parseStringBody [] r with
      | some (k, r2) =>
        match jsonSkipWs r2 with
        | ':' :: r3 =>
          match parseJsonValue fuel r3 with
          | some (v, rest) =>
            match jsonSkipWs rest with
            | ',' :: r4 => parseJsonPairs fuel ((k, v) :: acc) r4
            | '}' :: r4 => some (.obj ((k, v) :: acc).reverse, r4)
            | _ => none
          | none => none
        | _ => none
      | none => none
    | _ => none

end

/-- `JSON.parse`: one JSON value covering the whole input up to
insignificant whitespace, `none` on any syntax error (the `catch` branch
at use sites). -/
def JSON_parse (s : String) : Option JsValue :=
  match parseJsonValue (s.data.length + 1) s.data with
  | some (v, rest) => if (jsonSkipWs rest).isEmpty then some v else none
  | none => none

/-- ASCII lowercase of one character, as the ASCII fragment of JavaScript
`toLowerCase` (the only fragment the library's comparisons exercise). -/
def asciiLower (c : Char) : Char :=
  if 'A' ≤ c ∧ c ≤ 'Z' then Char.ofNat (c.toNat + 32) else c

/-- JavaScript `String.prototype.toLowerCase`, on its ASCII fragment. -/
def jsToLower (s : String) : String :=
  String.mk (s.data.map asciiLower)

/-- JavaScript `String.prototype.trim` on one side's worth of the
whitespace set, applied to both ends. -/
def jsTrim (s : String) : String :=
  String.mk (jsTrimL s.data)

/-- JavaScript `value.split(',')` (single-character string separator). -/
def jsSplitComma (s : String) : List String :=
  s.splitOn ","

/-- JavaScript `Array.prototype.join(', ')`. -/
def joinComma : List String → String
  | [] => ""
  | [x] => x
  | x :: xs => x ++ ", " ++ joinComma xs

/-- `allowedValues.map((v) => `'${v}'`).join(', ')` from the enum parser. -/
def quotedJoin (allowed : List String) : String :=
  joinComma (allowed.map (fun v => "'" ++ v ++ "'"))

/-- The NotANumber message of `envParsers.number` (lines 75-78). -/
def notANumberMessage (key value : String) : String :=
  "Environment variable '" ++ key ++ "' is not a valid number: '" ++ value ++ "'.\n" ++
    "Expected a numeric value like '3000' or '3.14'."

/-- The MissingRequired message of `envParsers.json` (line 145). -/
def jsonMissingMessage (key : String) : String :=
  "Required environment variable '" ++ key ++ "' is not defined.\nExpected a JSON string value."

/-- The InvalidJson message of `envParsers.json` (lines 153-156). -/
def invalidJsonMessage (key value : String) : String :=
  "Environment variable '" ++ key ++ "' is not valid JSON: '" ++ value ++ "'.\n" ++
    "Expected a valid JSON string like '\x7b\"key\":\"value\"\x7d'."

/-- The MissingRequired message of `envParsers.url` (line 182). -/
def urlMissingMessage (key : String) : String :=
  "Required environment variable '" ++ key ++ "' is not defined.\nExpected a valid URL."

/-- The InvalidUrl message of `envParsers.url` (lines 191-194). -/
def invalidUrlMessage (key value : String) : String :=
  "Environment variable '" ++ key ++ "' is not a valid URL: '" ++ value ++ "'.\n" ++
    "Expected a valid URL like 'https://example.com'."

/-- The MissingRequired message of `envParsers.enum` (lines 234-237). -/
def enumMissingMessage (key : String) (allowed : List String) : String :=
  "Required environment variable '" ++ key ++ "' is not defined.\n" ++
    "Expected one of: " ++ quotedJoin allowed ++ "."

/-- The InvalidEnumValue message of `envParsers.enum` (lines 243-246). -/
def invalidEnumMessage (key value : String) (allowed : List String) : String :=
  "Environment variable '" ++ key ++ "' has invalid value: '" ++ value ++ "'.\n" ++
    "Expected one of: " ++ quotedJoin allowed ++ "."

/-- Acceptance of the WHATWG `new URL(value)` constructor, modelled on the
cases that matter in practice: a scheme (ASCII letter, then
letters/digits/`+`/`-`/`.`) followed by `:`; the special network schemes
require `//` and a non-empty host. No claim in this development exercises
the present-and-valid branch of the url parser, so only the split between
"some scheme" and "no scheme" is ever observable here. -/
def isValidUrlString (s : String) : Bool :=
  match s.data with
  | c :: rest =>
    if ('a' ≤ c ∧ c ≤ 'z') ∨ ('A' ≤ c ∧ c ≤ 'Z') then schemeRest (asciiLower c) [] rest
    else false
  | [] => false
where
  /-- Consume the rest of the scheme up to `:`, accumulating it lowercased. -/
  schemeRest (c0 : Char) (acc : List Char) : List Char → Bool
    | [] => false
    | c :: rest =>
      if c = ':' then afterScheme (String.mk (c0 :: acc.reverse)) rest
      else if ('a' ≤ c ∧ c ≤ 'z') ∨ ('A' ≤ c ∧ c ≤ 'Z') ∨ ('0' ≤ c ∧ c ≤ '9')
          ∨ c = '+' ∨ c = '-' ∨ c = '.' then
        schemeRest c0 (asciiLower c :: acc) rest
      else false
  /-- After `scheme:`: special schemes need `//` and a nonempty host. -/
  afterScheme (scheme : String) (rest : List Char) : Bool :=
    if scheme ∈ ["http", "https", "ws", "wss", "ftp"] then
      match rest with
      | '/' :: '/' :: h :: _ => h ≠ '/' ∧ h ≠ '?' ∧ h ≠ '#'
      | _ => false
    else true

/-- `envParsers.boolean` (lines 43-47): `undefined` yields the default;
otherwise true iff the lowercased value is one of the truthy tokens. -/
def envParsers.boolean (w : World) (key : String) (d : Bool) : Except JsError Bool :=
  match env w key none with
  | .error e => .error e
  | .ok none => .ok d
  | .ok (some v) => .ok (["true", "1", "yes", "on"].contains (jsToLower v))

/-- `envParsers.number` (lines 69-81): `undefined` yields the default;
a value whose `Number` conversion is `NaN` throws NotANumber with the raw
value in the message; any other conversion result (non-finite included) is
returned. -/
def envParsers.number (w : World) (key : String) (d : JsNum) : Except JsError JsNum :=
  match env w key none with
  | .error e => .error e
  | .ok none => .ok d
  | .ok (some v) =>
    match jsStringToNumber v with
    | none => .error (.error (notANumberMessage key v))
    | some r => .ok r

/-- `envParsers.array` (lines 109-116): `undefined` yields the default;
otherwise split on commas, trim each piece, drop empties. -/
def envParsers.array (w : World) (key : String) (d : List String) :
    Except JsError (List String) :=
  match env w key none with
  | .error e => .error e
  | .ok none => .ok d
  | .ok (some v) => .ok (((jsSplitComma v).map jsTrim).filter (fun s => s ≠ ""))

/-- `envParsers.json` (lines 141-158): `undefined` with no default throws
MissingRequired, with a default yields it; a defined value is
`JSON.parse`d, throwing InvalidJson with the raw value on syntax error. -/
def envParsers.json (w : World) (key : String) (d : Option JsValue) :
    Except JsError JsValue :=
  match env w key none with
  | .error e => .error e
  | .ok none =>
    match d with
    | none => .error (.error (jsonMissingMessage key))
    | some dv => .ok dv
  | .ok (some v) =>
    match JSON_parse v with
    | some j => .ok j
    | none => .error (.error (invalidJsonMessage key v))

/-- `envParsers.url` (lines 178-196): `undefined` with no default throws
MissingRequired, with a default yields it; a defined value is returned
unchanged after `new URL(value)` validates, else InvalidUrl with the raw
value. -/
def envParsers.url (w : World) (key : String) (d : Option String) :
    Except JsError String :=
  match env w key none with
  | .error e => .error e
  | .ok none =>
    match d with
    | none => .error (.error (urlMissingMessage key))
    | some dv => .ok dv
  | .ok (some v) =>
    if isValidUrlString v then .ok v else .error (.error (invalidUrlMessage key v))

/-- `envParsers.enum` (lines 230-250): `undefined` with no default throws
MissingRequired listing the allowed values, with a default yields it
(unchecked, as the code's check is type-level only); a defined value must
be in the allowed list, else InvalidEnumValue listing the allowed values. -/
def envParsers.enum (w : World) (key : String) (allowed : List String)
    (d : Option String) : Except JsError String :=
  match env w key none with
  | .error e => .error e
  | .ok none =>
    match d with
    | none => .error (.error (enumMissingMessage key allowed))
    | some dv => .ok dv
  | .ok (some v) =>
    if allowed.contains v then .ok v
    else .error (.error (invalidEnumMessage key v allowed))

/-- The segment search finds every contiguous substring. -/
theorem hasSeg_of_infix (pat : List Char) (l : List Char) (h : pat <:+: l) :
    jsIncludes.hasSeg pat l = true := by
  induction l with
  | nil =>
    rw [List.infix_nil] at h
    subst h
    rfl
  | cons c cs ih =>
    rw [List.infix_cons_iff] at h
    rcases h with h | h
    · simp [jsIncludes.hasSeg, List.isPrefixOf_iff_prefix.mpr h]
    · simp [jsIncludes.hasSeg, ih h]

/-- `jsIncludes` holds for every contiguous substring. -/
theorem jsIncludes_of_infix (s pat : String) (h : pat.data <:+: s.data) :
    jsIncludes s pat = true :=
  hasSeg_of_infix pat.data s.data h

/-- Every member of a joined list occurs contiguously in the join. -/
theorem mem_infix_joinComma (s : String) (l : List String) (h : s ∈ l) :
    s.data <:+: (joinComma l).data := by
  induction l with
  | nil => cases h
  | cons x xs ih =>
    rcases List.mem_cons.mp h with rfl | hmem
    · cases xs with
      | nil => exact List.infix_refl _
      | cons y ys =>
        refine ⟨[], (", " ++ joinComma (y :: ys)).data, ?_⟩
        simp [joinComma, String.data_append]
    · cases xs with
      | nil => cases hmem
      | cons y ys =>
        obtain ⟨a, b, hab⟩ := ih hmem
        refine ⟨(x ++ ", ").data ++ a, b, ?_⟩
        simp only [joinComma, String.data_append, List.append_assoc]
        rw [← hab]
        simp [List.append_assoc]

/-- The NotANumber message contains the raw offending value. -/
theorem notANumber_includes_value (k v : String) :
    jsIncludes (notANumberMessage k v) v = true := by
  apply jsIncludes_of_infix
  refine ⟨("Environment variable '" ++ k ++ "' is not a valid number: '" : String).data,
    ("'.\n" ++ "Expected a numeric value like '3000' or '3.14'." : String).data, ?_⟩
  simp [notANumberMessage, String.data_append, List.append_assoc]

/-- The enum MissingRequired message lists (quoted) every allowed value. -/
theorem enumMissing_includes_allowed (k : String) (allowed : List String)
    (x : String) (hx : x ∈ allowed) :
    jsIncludes (enumMissingMessage k allowed) ("'" ++ x ++ "'") = true := by
  apply jsIncludes_of_infix
  have h1 : ("'" ++ x ++ "'").data <:+: (quotedJoin allowed).data :=
    mem_infix_joinComma _ _ (List.mem_map_of_mem _ hx)
  refine h1.trans ?_
  refine ⟨("Required environment variable '" ++ k ++ "' is not defined.\n"
      ++ "Expected one of: " : String).data, ("." : String).data, ?_⟩
  simp [enumMissingMessage, String.data_append, List.append_assoc]

/-- C5, amended: for a present value, `envParsers.number` throws NotANumber
(message containing the raw string) exactly when the `Number` conversion is
`NaN`, and otherwise returns the conversion's result — including non-finite
results such as `Infinity`, which are *not* rejected (this covers integer,
float and negative numerals via `jsStringToNumber`); an absent key yields
the default (`0` without one). -/
theorem number_parser_nan_classification (penv : EnvMap) (k v : String) (d : JsNum) :
    (lookupEnv penv k = some v →
      (jsStringToNumber v = none →
        envParsers.number (serverWorld penv) k d
          = .error (.error (notANumberMessage k v))
        ∧ jsIncludes (notANumberMessage k v) v = true)
      ∧ (∀ r, jsStringToNumber v = some r →
          envParsers.number (serverWorld penv) k d = .ok r))
    ∧ (lookupEnv penv k = none → envParsers.number (serverWorld penv) k d = .ok d) := by
  refine ⟨fun hv => ⟨fun hnan => ⟨?_, notANumber_includes_value k v⟩,
    fun r hr => ?_⟩, fun habs => ?_⟩ <;>
    simp_all [envParsers.number, env, isBrowser, serverWorld, jsNullish]

/-- C5 witness: `'abc'` throws with `'abc'` in the message, an absent key
yields the default `0`, and `'Infinity'` is returned, not rejected. -/
theorem number_parser_nan_classification_witness :
    (envParsers.number (serverWorld [("K", "abc")]) "K" (.finite 0)
        = .error (.error (notANumberMessage "K" "abc"))
      ∧ jsIncludes (notANumberMessage "K" "abc") "abc" = true)
    ∧ envParsers.number (serverWorld []) "K" (.finite 0) = .ok (.finite 0)
    ∧ envParsers.number (serverWorld [("K", "Infinity")]) "K" (.finite 0)
        = .ok .posInf :=
  ⟨((number_parser_nan_classification [("K", "abc")] "K" "abc" (.finite 0)).1
      (by decide)).1 (by decide),
   (number_parser_nan_classification [] "K" "" (.finite 0)).2 (by decide),
   ((number_parser_nan_classification [("K", "Infinity")] "K" "Infinity" (.finite 0)).1
      (by decide)).2 .posInf (by decide)⟩

/-- C5, counterexample. The claim says the parser rejects non-finite
results, but `Number('Infinity')` is `Infinity`, not `NaN`, so the
`Number.isNaN` guard passes it through: the parser returns it without
throwing. -/
theorem number_returns_infinity_counterexample :
    envParsers.number (serverWorld [("NEXT_PUBLIC_N", "Infinity")]) "NEXT_PUBLIC_N"
        (.finite 0)
      = .ok JsNum.posInf := by
  rfl

/-- C6 (confirmed): with an absent key and no default (the source's
default-parameter values), boolean yields `false`, number `0`, array `[]`,
and json, url and enum throw their MissingRequired errors, enum's message
listing every allowed value; with a default, every parser returns that
default. -/
theorem parser_absent_key_table (penv : EnvMap) (k : String) (allowed : List String)
    (db : Bool) (dn : JsNum) (da : List String) (dj : JsValue) (du de : String)
    (h : lookupEnv penv k = none) :
    envParsers.boolean (serverWorld penv) k false = .ok false
    ∧ envParsers.boolean (serverWorld penv) k db = .ok db
    ∧ envParsers.number (serverWorld penv) k (.finite 0) = .ok (.finite 0)
    ∧ envParsers.number (serverWorld penv) k dn = .ok dn
    ∧ envParsers.array (serverWorld penv) k [] = .ok []
    ∧ envParsers.array (serverWorld penv) k da = .ok da
    ∧ envParsers.json (serverWorld penv) k none = .error (.error (jsonMissingMessage k))
    ∧ envParsers.json (serverWorld penv) k (some dj) = .ok dj
    ∧ envParsers.url (serverWorld penv) k none = .error (.error (urlMissingMessage k))
    ∧ envParsers.url (serverWorld penv) k (some du) = .ok du
    ∧ envParsers.enum (serverWorld penv) k allowed none
        = .error (.error (enumMissingMessage k allowed))
    ∧ (∀ x ∈ allowed,
        jsIncludes (enumMissingMessage k allowed) ("'" ++ x ++ "'") = true)
    ∧ envParsers.enum (serverWorld penv) k allowed (some de) = .ok de := by
  refine ⟨?_, ?_, ?_, ?_, ?_, ?_, ?_, ?_, ?_, ?_, ?_,
    fun x hx => enumMissing_includes_allowed k allowed x hx, ?_⟩ <;>
    simp [envParsers.boolean, envParsers.number, envParsers.array, envParsers.json,
      envParsers.url, envParsers.enum, env, isBrowser, serverWorld, jsNullish, h]

/-- C6 witness: the table evaluated at an empty environment. -/
theorem parser_absent_key_table_witness :
    envParsers.boolean (serverWorld []) "K" false = .ok false
    ∧ envParsers.number (serverWorld []) "K" (.finite 0) = .ok (.finite 0)
    ∧ envParsers.array (serverWorld []) "K" [] = .ok []
    ∧ envParsers.json (serverWorld []) "K" none
        = .error (.error (jsonMissingMessage "K"))
    ∧ envParsers.json (serverWorld []) "K" (some .null) = .ok .null
    ∧ envParsers.url (serverWorld []) "K" none
        = .error (.error (urlMissingMessage "K"))
    ∧ envParsers.enum (serverWorld []) "K" ["dev", "staging", "prod"] none
        = .error (.error (enumMissingMessage "K" ["dev", "staging", "prod"]))
    ∧ jsIncludes (enumMissingMessage "K" ["dev", "staging", "prod"]) "'staging'" = true
    ∧ envParsers.enum (serverWorld []) "K" ["dev", "staging", "prod"] (some "dev")
        = .ok "dev" := by
  have base := parser_absent_key_table [] "K" ["dev", "staging", "prod"]
    true .posInf ["x"] .null "https://example.com" "dev" (by decide)
  have hq : jsIncludes (enumMissingMessage "K" ["dev", "staging", "prod"])
      ("'" ++ "staging" ++ "'") = true :=
    base.2.2.2.2.2.2.2.2.2.2.2.1 "staging" (by decide)
  exact ⟨base.1, base.2.2.1, base.2.2.2.2.1, base.2.2.2.2.2.2.1, base.2.2.2.2.2.2.2.1,
    base.2.2.2.2.2.2.2.2.1, base.2.2.2.2.2.2.2.2.2.2.1, by simpa using hq,
    base.2.2.2.2.2.2.2.2.2.2.2.2⟩

/-! ## PublicPromoter: `makeEnvPublic` from `src/utils/make-env-public.ts` -/

/-- A diagnostic level of the log helpers. -/
inductive LogLevel where
  | event
  | warn
deriving DecidableEq, Repr

/-- Modelled from the spec: the log helpers `warn`/`event` of
`src/helpers/log` are not among the repository's source files (only their
callers and spec are). Section 4.6 describes leveled diagnostics — an
event-level success message, a warn-level skip message — so a helper call
is modelled as one emitted leveled record. -/
structure LogRecord where
  level : LogLevel
  message : String
deriving DecidableEq, Repr

/-- JavaScript truthiness of `process.env[key]` negated:
`!process.env[key]` is true for `undefined` and for the empty string. -/
def isFalsyStr (v : Option String) : Bool :=
  match v with
  | none => true
  | some s => s.isEmpty

/-- The already-public test `/^NEXT_PUBLIC_/i.test(key)`: a
case-insensitive prefix match (ASCII pattern, so lowercase comparison). -/
def testPublicCI (key : String) : Bool :=
  jsStartsWith (jsToLower key) (jsToLower NEXT_PUBLIC_)

/-- JavaScript property assignment `m[k] = v` on the insertion-ordered
object model: overwrite in place when the key exists, else append. -/
def setEnv (m : EnvMap) (k v : String) : EnvMap :=
  if (m.lookup k).isSome then
    m.map (fun p => if p.1 == k then (p.1, v) else p)
  else m ++ [(k, v)]

/-- `prefixKey` from `src/utils/make-env-public.ts` (lines 15-36): warn
and return when `!process.env[key]`; warn — *without returning* — when the
key already matches `/^NEXT_PUBLIC_/i`; then assign
`process.env['NEXT_PUBLIC_' + key] = process.env[key]` and emit the
success event. Returns the updated map and the emitted diagnostics in
order. -/
def prefixKey (penv : EnvMap) (key : String) : EnvMap × List LogRecord :=
  if isFalsyStr (lookupEnv penv key) then
    (penv, [⟨.warn, "Skipped prefixing environment variable '" ++ key
      ++ "'. Variable not in process.env"⟩])
  else
    let warns := if testPublicCI key then
        [(⟨.warn, "Environment variable '" ++ key ++ "' is already public"⟩ : LogRecord)]
      else []
    let value := (lookupEnv penv key).getD ""
    let penv' := setEnv penv (NEXT_PUBLIC_ ++ key) value
    (penv', warns ++ [⟨.event, "Prefixed environment variable '" ++ key ++ "'"⟩])

/-- `makeEnvPublic` from `src/utils/make-env-public.ts` (lines 118-127):
a single key or a list of keys, each through `prefixKey`, threading the
map and accumulating diagnostics. -/
def makeEnvPublic (penv : EnvMap) (keys : List String) : EnvMap × List LogRecord :=
  keys.foldl (fun (acc : EnvMap × List LogRecord) k =>
    let r := prefixKey acc.1 k
    (r.1, acc.2 ++ r.2)) (penv, [])

/-- C9 (code bug): on an already-public key, `prefixKey` emits the warning
but does not skip — the branch lacks a `return`, so it falls through,
copies the value under `NEXT_PUBLIC_NEXT_PUBLIC_FOO` (changing the map)
and even emits the success event, contradicting the function's own doc
comment ("Skips variables already prefixed with NEXT_PUBLIC_") and the
guide ("If a variable already has the prefix, it's skipped"). The second
conjunct shows the promoting case the claim also describes: the original
entry is untouched, its value copied under the prefixed name. -/
theorem makeEnvPublic_already_public_not_skipped :
    prefixKey [("NEXT_PUBLIC_FOO", "bar")] "NEXT_PUBLIC_FOO"
      = ([("NEXT_PUBLIC_FOO", "bar"), ("NEXT_PUBLIC_NEXT_PUBLIC_FOO", "bar")],
         [⟨.warn, "Environment variable 'NEXT_PUBLIC_FOO' is already public"⟩,
          ⟨.event, "Prefixed environment variable 'NEXT_PUBLIC_FOO'"⟩])
    ∧ prefixKey [("API_URL", "v")] "API_URL"
      = ([("API_URL", "v"), ("NEXT_PUBLIC_API_URL", "v")],
         [⟨.event, "Prefixed environment variable 'API_URL'"⟩]) := by
  constructor <;> decide
